import Mathlib

/-
Verification of the version-resolution core of the solcix repository.

The development shallowly embeds the Python source:
  * `Version` and its rich-comparison methods     (solcix/datatypes/datatypes.py)
  * `is_valid_version`                            (solcix/utils.py)
  * `resolve_version_from_solidity`               (solcix/resolver.py)
  * `get_compatible_versions`                     (solcix/resolver.py)
  * `get_recommended_version`                     (solcix/resolver.py)

Python exceptions are modelled with `Except PyErr`; machine-independent Python
integers are modelled with `Int`.  The release catalog (the sorted `releases`
dictionary produced by `get_available_versions` together with the `latest`
string, and the nested major -> minor -> patch `version_dict` derived from it
by `_get_version_dict`) is passed explicitly, as a list of parsed version
triples in dictionary order plus the parsed `latest` version; the network /
cache layer that produces it is outside the modelled core.
-/

/-- The Python exceptions that the modelled code can raise. -/
inductive PyErr where
  | typeError
  | valueError
  | assertionError
  | noCompatibleVersionError
  | notImplementedError
deriving DecidableEq

/-- The `Version` value type: three integer components parsed from a
`major.minor.patch` string (datatypes.py).  Components are `Int` because
Python integers are unbounded; parsed components are always non-negative. -/
structure Version where
  major : Int
  minor : Int
  patch : Int
deriving DecidableEq

/-- A Python value that can appear as the right operand of a `Version`
comparison: the methods first test `isinstance(other, Version)`. -/
inductive PyVal where
  | ver (v : Version)
  | pyStr (s : String)
  | pyNone
  | pyInt (n : Int)
deriving DecidableEq

/-- `Version.__eq__` on two `Version`s: component-wise equality. -/
def veqB (a b : Version) : Bool :=
  a.major == b.major && a.minor == b.minor && a.patch == b.patch

/-- `Version.__ne__` on two `Version`s: some component differs. -/
def vneB (a b : Version) : Bool :=
  !(a.major == b.major) || !(a.minor == b.minor) || !(a.patch == b.patch)

/-- `Version.__lt__` on two `Version`s: Python tuple comparison
`(major, minor, patch) < (major, minor, patch)`, i.e. lexicographic. -/
def vlt (a b : Version) : Bool :=
  decide (a.major < b.major) ||
    (a.major == b.major &&
      (decide (a.minor < b.minor) ||
        (a.minor == b.minor && decide (a.patch < b.patch))))

/-- `Version.__gt__` on two `Version`s: lexicographic tuple `>`. -/
def vgt (a b : Version) : Bool :=
  decide (b.major < a.major) ||
    (a.major == b.major &&
      (decide (b.minor < a.minor) ||
        (a.minor == b.minor && decide (b.patch < a.patch))))

/-- `Version.__le__` on two `Version`s: lexicographic tuple `<=`. -/
def vle (a b : Version) : Bool :=
  decide (a.major < b.major) ||
    (a.major == b.major &&
      (decide (a.minor < b.minor) ||
        (a.minor == b.minor && decide (a.patch ≤ b.patch))))

/-- `Version.__ge__` on two `Version`s: lexicographic tuple `>=`. -/
def vge (a b : Version) : Bool :=
  decide (b.major < a.major) ||
    (a.major == b.major &&
      (decide (b.minor < a.minor) ||
        (a.minor == b.minor && decide (b.patch ≤ a.patch))))

/-- `Version.__xor__` (the caret relation `a ^ b`) on two `Version`s:
same major, same minor, and `a.patch >= b.patch`. -/
def vxor (a b : Version) : Bool :=
  a.major == b.major && a.minor == b.minor && decide (b.patch ≤ a.patch)

/-- `Version.__eq__` as the source defines it, on an arbitrary right operand:
a non-`Version` operand raises `NotImplementedError`. -/
def Version.eqDyn (a : Version) (x : PyVal) : Except PyErr Bool :=
  match x with
  | .ver b => .ok (veqB a b)
  | _ => .error .notImplementedError

/-- `Version.__ne__` on an arbitrary right operand. -/
def Version.neDyn (a : Version) (x : PyVal) : Except PyErr Bool :=
  match x with
  | .ver b => .ok (vneB a b)
  | _ => .error .notImplementedError

/-- `Version.__lt__` on an arbitrary right operand. -/
def Version.ltDyn (a : Version) (x : PyVal) : Except PyErr Bool :=
  match x with
  | .ver b => .ok (vlt a b)
  | _ => .error .notImplementedError

/-- `Version.__gt__` on an arbitrary right operand. -/
def Version.gtDyn (a : Version) (x : PyVal) : Except PyErr Bool :=
  match x with
  | .ver b => .ok (vgt a b)
  | _ => .error .notImplementedError

/-- `Version.__le__` on an arbitrary right operand. -/
def Version.leDyn (a : Version) (x : PyVal) : Except PyErr Bool :=
  match x with
  | .ver b => .ok (vle a b)
  | _ => .error .notImplementedError

/-- `Version.__ge__` on an arbitrary right operand. -/
def Version.geDyn (a : Version) (x : PyVal) : Except PyErr Bool :=
  match x with
  | .ver b => .ok (vge a b)
  | _ => .error .notImplementedError

/-- `Version.__xor__` on an arbitrary right operand. -/
def Version.xorDyn (a : Version) (x : PyVal) : Except PyErr Bool :=
  match x with
  | .ver b => .ok (vxor a b)
  | _ => .error .notImplementedError

/-- Python `str(n)` for an integer. -/
def intStr (n : Int) : String := toString n

/-- `Version.__repr__`: the string `f"{major}.{minor}.{patch}"`. -/
def verStr (v : Version) : String :=
  intStr v.major ++ "." ++ intStr v.minor ++ "." ++ intStr v.patch

/-- Python's ASCII whitespace characters (the `\s` class and what `int`
strips; the source never passes strings with non-ASCII whitespace). -/
def isPyWs (c : Char) : Bool :=
  c == ' ' || c == '\t' || c == '\n' || c == '\r' || c == '\x0b' || c == '\x0c'

/-- Strip leading and trailing whitespace, as Python `int()` does to its
string argument. -/
def trimWs (l : List Char) : List Char :=
  ((l.dropWhile isPyWs).reverse.dropWhile isPyWs).reverse

/-- Decimal value of a digit string. -/
def digitsToNat (l : List Char) : Nat :=
  l.foldl (fun n c => n * 10 + (c.toNat - 48)) 0

/-- Python `int(s)` restricted to ASCII inputs: surrounding (ASCII)
whitespace is stripped, then a non-empty run of ASCII decimal digits is
required; `none` models `ValueError`.  Python also accepts signs,
underscores between digits, and non-ASCII Unicode decimal digits
(`int("١") == 1`): the classification theorem over all inputs therefore
carries an explicit ASCII hypothesis, and in the regex-gated paths a sign
or underscore can never reach `int`. -/
def pyIntChars (l : List Char) : Option Int :=
  let t := trimWs l
  if t ≠ [] ∧ t.all Char.isDigit then some ((digitsToNat t : Nat) : Int) else none

/-- Consume one-or-more digits (`\d+`, greedy) from the front; since a
digit never also matches the character that follows the run in the patterns
below, the greedy run needs no backtracking. -/
def dropDigits1 : List Char → Option (List Char)
  | [] => none
  | c :: cs => if Char.isDigit c then some (cs.dropWhile Char.isDigit) else none

/-- `re.match(r"^\d+\.\d+\.\d+$", s)` as a boolean on the character list:
three dot-separated digit runs, with `\d` modelled as the ASCII digits.
Python's `\d` (a str pattern without `re.ASCII`) also matches non-ASCII
Unicode decimal digits, so this model is faithful on ASCII strings only;
the classification theorem below is accordingly stated for ASCII strings.
Python's `$` (without `re.MULTILINE`) matches at the end of the string or
just before one trailing newline, so a single trailing `'\n'` is also
accepted. -/
def validVersionChars (l : List Char) : Bool :=
  match dropDigits1 l with
  | none => false
  | some [] => false
  | some (x :: l2) =>
    if x = '.' then
      match dropDigits1 l2 with
      | none => false
      | some [] => false
      | some (y :: l4) =>
        if y = '.' then
          match dropDigits1 l4 with
          | none => false
          | some l5 => l5 == [] || l5 == ['\n']
        else false
    else false

/-- `is_valid_version` (utils.py). -/
def is_valid_version (s : String) : Bool := validVersionChars s.data

/-- Python `s.split(".")`: split at every `'.'`, keeping empty pieces. -/
def pySplitDot : List Char → List (List Char)
  | [] => [[]]
  | c :: cs =>
    if c = '.' then [] :: pySplitDot cs
    else
      match pySplitDot cs with
      | [] => [[c]]
      | h :: t => (c :: h) :: t

/-- `Version.__init__` (datatypes.py): `assert is_valid_version(version)`
(an invalid string raises `AssertionError`), then
`self.major, self.minor, self.patch = map(int, version.split("."))`
(a wrong number of pieces or an unparsable piece raises `ValueError`). -/
def Version.init (s : String) : Except PyErr Version :=
  if is_valid_version s then
    match pySplitDot s.data with
    | [a, b, c] =>
      match pyIntChars a, pyIntChars b, pyIntChars c with
      | some x, some y, some z => .ok ⟨x, y, z⟩
      | _, _, _ => .error .valueError
    | _ => .error .valueError
  else .error .assertionError

/-- A non-empty list of decimal digits (specification-side vocabulary). -/
def digitRun (l : List Char) : Prop := l ≠ [] ∧ ∀ c ∈ l, Char.isDigit c

/-- Specification-side statement of the amended validity shape: exactly
three dot-separated non-empty digit runs, optionally followed by a single
trailing newline. -/
def validShapeSpec (l : List Char) : Prop :=
  ∃ a b c t, digitRun a ∧ digitRun b ∧ digitRun c ∧ (t = [] ∨ t = ['\n']) ∧
    l = a ++ '.' :: (b ++ '.' :: (c ++ t))

/-- Names of the eight named capture groups of the pragma pattern. -/
inductive GName where
  | fc | f1 | f2 | f3 | sc | s1 | s2 | s3
deriving DecidableEq

/-- The `groupdict()` of a match of the pragma pattern: one `Option String`
per named group, `none` when the group never participated in the match. -/
structure Groups where
  first_comp : Option String
  first_1 : Option String
  first_2 : Option String
  first_3 : Option String
  second_comp : Option String
  second_1 : Option String
  second_2 : Option String
  second_3 : Option String
deriving DecidableEq

/-- The empty group dictionary (before any group participates). -/
def noGroups : Groups := ⟨none, none, none, none, none, none, none, none⟩

/-- Record a capture.  As in Python `re`, a later capture of the same group
overwrites an earlier one, and a group that stops participating keeps its
last captured value. -/
def setG (g : Groups) (n : GName) (s : String) : Groups :=
  match n with
  | .fc => ⟨some s, g.first_1, g.first_2, g.first_3, g.second_comp, g.second_1, g.second_2, g.second_3⟩
  | .f1 => ⟨g.first_comp, some s, g.first_2, g.first_3, g.second_comp, g.second_1, g.second_2, g.second_3⟩
  | .f2 => ⟨g.first_comp, g.first_1, some s, g.first_3, g.second_comp, g.second_1, g.second_2, g.second_3⟩
  | .f3 => ⟨g.first_comp, g.first_1, g.first_2, some s, g.second_comp, g.second_1, g.second_2, g.second_3⟩
  | .sc => ⟨g.first_comp, g.first_1, g.first_2, g.first_3, some s, g.second_1, g.second_2, g.second_3⟩
  | .s1 => ⟨g.first_comp, g.first_1, g.first_2, g.first_3, g.second_comp, some s, g.second_2, g.second_3⟩
  | .s2 => ⟨g.first_comp, g.first_1, g.first_2, g.first_3, g.second_comp, g.second_1, some s, g.second_3⟩
  | .s3 => ⟨g.first_comp, g.first_1, g.first_2, g.first_3, g.second_comp, g.second_1, g.second_2, some s⟩

/-- The regular-expression constructs used by the pragma pattern:
a literal, a single character from a class, a greedy character-class star
`[..]*`, a greedy one-or-more `\d+`, sequencing, a named capturing group,
and a greedy starred group `(...)*`. -/
inductive RE where
  | lit (cs : List Char)
  | one (p : Char → Bool)
  | starCls (p : Char → Bool)
  | plusCls (p : Char → Bool)
  | seq (a b : RE)
  | cap (n : GName) (r : RE)
  | starGrp (r : RE)

/-- Greedy matching of a character-class star whose maximal run has length
`n`: try consuming `n` characters first, then backtrack to shorter runs,
down to zero. -/
def tryDrops (k : List Char → Groups → Option Groups) (s : List Char) (g : Groups) : Nat → Option Groups
  | 0 => k s g
  | n + 1 => (k (s.drop (n + 1)) g) <|> tryDrops k s g n

/-- Greedy matching of a one-or-more character class (maximal run length
`n`): like `tryDrops` but at least one character must be consumed. -/
def tryDrops1 (k : List Char → Groups → Option Groups) (s : List Char) (g : Groups) : Nat → Option Groups
  | 0 => none
  | n + 1 => (k (s.drop (n + 1)) g) <|> tryDrops1 k s g n

/-- Backtracking regex matcher in continuation-passing style, with the
leftmost-greedy semantics of Python `re`: stars prefer more repetitions and
backtrack on failure; captures made on abandoned branches are discarded; a
starred group whose body matches the empty string stops repeating.  `fuel`
bounds the recursion depth (pattern nesting plus star iterations, each
iteration consuming input) and is chosen large enough at the call site. -/
def reNodeMatch : Nat → RE → List Char → Groups → (List Char → Groups → Option Groups) → Option Groups
  | 0, _, _, _, _ => none
  | fuel + 1, r, s, g, k =>
    match r with
    | .lit cs => if cs.isPrefixOf s then k (s.drop cs.length) g else none
    | .one p =>
      match s with
      | [] => none
      | c :: rest => if p c then k rest g else none
    | .starCls p => tryDrops k s g (s.takeWhile p).length
    | .plusCls p => tryDrops1 k s g (s.takeWhile p).length
    | .seq a b => reNodeMatch fuel a s g (fun s2 g2 => reNodeMatch fuel b s2 g2 k)
    | .cap n r' =>
      reNodeMatch fuel r' s g
        (fun s2 g2 => k s2 (setG g2 n (String.mk (s.take (s.length - s2.length)))))
    | .starGrp r' =>
      (reNodeMatch fuel r' s g (fun s2 g2 =>
        if s2.length < s.length then reNodeMatch fuel (.starGrp r') s2 g2 k
        else k s2 g2)) <|> k s g

/-- Right-nested sequencing of a list of pattern pieces. -/
def seqAll : List RE → RE
  | [] => .lit []
  | [r] => r
  | r :: rs => .seq r (seqAll rs)

/-- The `\s` class (ASCII model, as in `isPyWs`). -/
def wsC (c : Char) : Bool := isPyWs c

/-- The comparator class `[>^=<]`. -/
def compC (c : Char) : Bool := c == '>' || c == '^' || c == '=' || c == '<'

/-- The padding class `[\s\"\']`. -/
def padC (c : Char) : Bool := wsC c || c == '\"' || c == '\''

/-- The padding class `[\s\"]` (the second clause's trailing class has no
apostrophe in the source pattern). -/
def pad2C (c : Char) : Bool := wsC c || c == '\"'

/-- The literal dot class. -/
def dotC (c : Char) : Bool := c == '.'

/-- One clause of the pragma pattern:
`(?P<comp>[>^=<]*)[\s\"\']*(?P<a>\d+)\s*\.\s*(?P<b>\d+)\s*\.*\s*(?P<c>\d+)*TRAIL*`
where `TRAIL` is `[\s\"\']` for the first clause and `[\s\"]` for the
second. -/
def clauseRE (nc n1 n2 n3 : GName) (trail : Char → Bool) : RE :=
  seqAll [ .cap nc (.starCls compC), .starCls padC, .cap n1 (.plusCls Char.isDigit),
           .starCls wsC, .one dotC, .starCls wsC, .cap n2 (.plusCls Char.isDigit),
           .starCls wsC, .starCls dotC, .starCls wsC, .starGrp (.cap n3 (.plusCls Char.isDigit)),
           .starCls trail ]

/-- The full pattern of `resolve_version_from_solidity` (resolver.py):
`pragma solidity(\s*FIRST-CLAUSE)(SECOND-CLAUSE)*;` — the unnamed outer
parentheses capture nothing the code reads and are dropped. -/
def pragmaRE : RE :=
  seqAll [ .lit ("pragma solidity".data), .starCls wsC,
           clauseRE .fc .f1 .f2 .f3 padC,
           .starGrp (clauseRE .sc .s1 .s2 .s3 pad2C),
           .one (fun c => c == ';') ]

/-- `re.match(pattern, source)`: anchored at the start of the text, free at
the end; returns the group dictionary on success. -/
def reMatch (s : String) : Option Groups :=
  reNodeMatch (s.length * 60 + 600) pragmaRE s.data noGroups (fun _ g => some g)

/-- Python truthiness of an optional capture: `None` and the empty string
are falsy (`all([second_1, second_2, second_3])` in the source). -/
def truthy : Option String → Bool
  | none => false
  | some s => !(s == "")

/-- `int(capture)`: `int(None)` raises `TypeError`; an un-parsable string
raises `ValueError` (cannot occur for `\d+` captures). -/
def pyIntCap : Option String → Except PyErr Int
  | none => .error .typeError
  | some s =>
    match pyIntChars s.data with
    | some n => .ok n
    | none => .error .valueError

/-- The tuple `(int(a), int(b), int(c))`, evaluated left to right. -/
def tripleOfCaps (a b c : Option String) : Except PyErr (Int × Int × Int) :=
  match pyIntCap a with
  | .error e => .error e
  | .ok x =>
    match pyIntCap b with
    | .error e => .error e
    | .ok y =>
      match pyIntCap c with
      | .error e => .error e
      | .ok z => .ok (x, y, z)

/-- Python tuple `>` on integer triples (lexicographic). -/
def tupGT (x y : Int × Int × Int) : Bool :=
  decide (y.1 < x.1) ||
    (x.1 == y.1 && (decide (y.2.1 < x.2.1) || (x.2.1 == y.2.1 && decide (y.2.2 < x.2.2))))

/-- One parsed clause `(operator, major, minor, patch)`. -/
abbrev Clause := String × Int × Int × Int

/-- A parsed pragma: the first clause plus an optional second clause
(`PRAGMA_TYPE` without its `None` alternative, which is carried by
`Option Pragma`). -/
abbrev Pragma := Clause × Option Clause

/-- `resolve_version_from_solidity` (resolver.py) on source text (the
file-path branch only selects the first `pragma` line of a file and is I/O,
so the text itself is the input here).  `.ok none` models returning `None`;
the `int(...)` conversions can raise `TypeError` when a group is `None`. -/
def resolve_version_from_solidity (source : String) : Except PyErr (Option Pragma) :=
  match reMatch source with
  | none => .ok none
  | some g =>
    if g.second_comp.isSome && truthy g.second_1 && truthy g.second_2 && truthy g.second_3 then
      match tripleOfCaps g.first_1 g.first_2 g.first_3 with
      | .error e => .error e
      | .ok t1 =>
        match tripleOfCaps g.second_1 g.second_2 g.second_3 with
        | .error e => .error e
        | .ok t2 =>
          if tupGT t1 t2 then .ok none
          else .ok (some ((g.first_comp.getD "", t1.1, t1.2.1, t1.2.2),
                          some (g.second_comp.getD "", t2.1, t2.2.1, t2.2.2)))
    else
      match tripleOfCaps g.first_1 g.first_2 g.first_3 with
      | .error e => .error e
      | .ok t1 => .ok (some ((g.first_comp.getD "", t1.1, t1.2.1, t1.2.2), none))

/-- The release catalog as the resolver consumes it: the `releases`
dictionary of `get_available_versions` (keys parsed into version triples,
in dictionary order, which the producer sorts version-ascending) together
with the parsed `latest` version string. -/
structure Catalog where
  releases : List Version
  latest : Version

/-- The keys of `version_dict[M][m]` built by `_get_version_dict`: the patch
numbers of the catalog entries with major `M` and minor `m` (a missing key
yields an empty `defaultdict`, i.e. the empty list). -/
def patchesOf (rel : List Version) (M m : Int) : List Int :=
  (rel.filter (fun v => v.major == M && v.minor == m)).map Version.patch

/-- The keys of `version_dict[M]`: the minor numbers occurring under major
`M` (dictionary keys are unique; the possible duplicates in this list model
do not affect the `min`/`max` taken of them). -/
def minorsOf (rel : List Version) (M : Int) : List Int :=
  (rel.filter (fun v => v.major == M)).map Version.minor

/-- Python `min(xs, default=0)`. -/
def minD : List Int → Int
  | [] => 0
  | x :: xs => xs.foldl min x

/-- Python `max(xs, default=0)`. -/
def maxD : List Int → Int
  | [] => 0
  | x :: xs => xs.foldl max x

/-- `Version(f"{a}.{b}.{c}")` on integer components: the constructor's
regex assert succeeds exactly when all three are non-negative (a negative
component puts a `'-'` into the string, which `^\d+\.\d+\.\d+$` rejects),
and then the components round-trip unchanged. -/
def versionOfInts (a b c : Int) : Except PyErr Version :=
  if 0 ≤ a ∧ 0 ≤ b ∧ 0 ≤ c then .ok ⟨a, b, c⟩ else .error .assertionError

/-- `get_recommended_version` (resolver.py), with the catalog and the
platform's earliest release passed explicitly.  Faithful to the source,
including: `>` steps with `min(version_dict[first_major + 1], default=0)`
(the minor numbers of the NEXT MAJOR); in the `<` branch the
`NoCompatibleVersionError("earliest", earliest)` on line 207 is constructed
but not raised (the `raise` keyword is missing), so execution falls
through; `max`/`min` of an empty patch set raise `ValueError`; an operator
outside the six handled ones falls through to `return None`. -/
def get_recommended_version (cat : Catalog) (earliest : Version) (pragma : Option Pragma) :
    Except PyErr (Option String) :=
  match pragma with
  | none => .ok none
  | some pr =>
    let (op, M, m, p) := pr.1
    if op ∈ (["^", ">=", "<=", ""] : List String) then
      .ok (some (intStr M ++ "." ++ intStr m ++ "." ++ intStr p))
    else if op = ">" then
      match versionOfInts M m p with
      | .error e => .error e
      | .ok v =>
        if vge v cat.latest then .error .noCompatibleVersionError
        else
          match patchesOf cat.releases M m with
          | [] => .error .valueError
          | q :: qs =>
            if decide (qs.foldl max q ≤ p) then
              .ok (some (intStr M ++ "." ++ intStr (m + 1) ++ "." ++
                    intStr (minD (minorsOf cat.releases (M + 1)))))
            else
              .ok (some (intStr M ++ "." ++ intStr m ++ "." ++ intStr (p + 1)))
    else if op = "<" then
      match versionOfInts M m p with
      | .error e => .error e
      | .ok v =>
        let _unraised := vle v earliest
        match patchesOf cat.releases M m with
        | [] => .error .valueError
        | q :: qs =>
          if decide (p ≤ qs.foldl min q) then
            .ok (some (intStr M ++ "." ++ intStr (m - 1) ++ "." ++
                  intStr (maxD (patchesOf cat.releases M (m - 1)))))
          else
            .ok (some (intStr M ++ "." ++ intStr m ++ "." ++ intStr (p - 1)))
    else .ok none

/-- The three result shapes of `get_compatible_versions`: `None`, a single
exact version string, or a list of version strings. -/
inductive CompatResult where
  | noneR
  | exactR (s : String)
  | listR (l : List String)
deriving DecidableEq

/-- `get_compatible_versions` (resolver.py), with the catalog passed
explicitly (`versions = get_version_objects(releases)` is the catalog's
triples in dictionary order). -/
def get_compatible_versions (cat : Catalog) (pragma : Option Pragma) :
    Except PyErr CompatResult :=
  match pragma with
  | none => .ok .noneR
  | some pr =>
    let (op1, M1, m1, p1) := pr.1
    match versionOfInts M1 m1 p1 with
    | .error e => .error e
    | .ok v1 =>
      if op1 = "" then .ok (.exactR (verStr v1))
      else
        match pr.2 with
        | none =>
          let l :=
            if op1 = "^" then cat.releases.filter (fun x => vxor x v1)
            else if op1 = ">=" then cat.releases.filter (fun x => vge x v1)
            else if op1 = "<=" then cat.releases.filter (fun x => vle x v1)
            else if op1 = ">" then cat.releases.filter (fun x => vgt x v1)
            else if op1 = "<" then cat.releases.filter (fun x => vlt x v1)
            else []
          .ok (.listR (l.map verStr))
        | some (op2, M2, m2, p2) =>
          match versionOfInts M2 m2 p2 with
          | .error e => .error e
          | .ok v2 =>
            let l :=
              if op1 = ">=" && op2 = "<=" then
                cat.releases.filter (fun x => vle v1 x && vle x v2)
              else if op1 = ">" && op2 = "<=" then
                cat.releases.filter (fun x => vlt v1 x && vle x v2)
              else if op1 = ">=" && op2 = "<" then
                cat.releases.filter (fun x => vle v1 x && vlt x v2)
              else if op1 = ">" && op2 = "<" then
                cat.releases.filter (fun x => vlt v1 x && vlt x v2)
              else []
            .ok (.listR (l.map verStr))

/-- Specification-side strict version order: lexicographic on the numeric
triple (the catalog's "version-ascending" order). -/
def vLexLt (a b : Version) : Prop :=
  a.major < b.major ∨
    (a.major = b.major ∧ (a.minor < b.minor ∨ (a.minor = b.minor ∧ a.patch < b.patch)))

/-- Specification-side non-strict version order. -/
def vLexLe (a b : Version) : Prop :=
  vLexLt a b ∨ (a.major = b.major ∧ a.minor = b.minor ∧ a.patch = b.patch)

/-- Specification-side interval membership for a two-clause constraint:
the lower clause's operator picks an open or closed lower bound, the upper
clause's operator an open or closed upper bound. -/
def inInterval (lo hi : Version) (op1 op2 : String) (x : Version) : Prop :=
  (if op1 = ">=" then vLexLe lo x else vLexLt lo x) ∧
  (if op2 = "<=" then vLexLe x hi else vLexLt x hi)

instance (a b : Version) : Decidable (vLexLt a b) := by
  unfold vLexLt
  infer_instance

instance (a b : Version) : Decidable (vLexLe a b) := by
  unfold vLexLe
  infer_instance

instance (lo hi : Version) (op1 op2 : String) (x : Version) :
    Decidable (inInterval lo hi op1 op2 x) := by
  unfold inInterval
  infer_instance

instance (l : List Char) : Decidable (digitRun l) := by
  unfold digitRun
  infer_instance


/-- C9: the caret relation `a ^ b` holds exactly when the majors and minors
agree and `a`'s patch is at least `b`'s; in particular `1.2.5 ^ 1.2.3`
holds while `1.3.0 ^ 1.2.3` and `1.2.2 ^ 1.2.3` do not. -/
theorem version_caret_spec :
    (∀ a b : Version,
      Version.xorDyn a (.ver b) = .ok true ↔
        (a.major = b.major ∧ a.minor = b.minor ∧ b.patch ≤ a.patch)) ∧
    Version.xorDyn ⟨1, 2, 5⟩ (.ver ⟨1, 2, 3⟩) = .ok true ∧
    Version.xorDyn ⟨1, 3, 0⟩ (.ver ⟨1, 2, 3⟩) = .ok false ∧
    Version.xorDyn ⟨1, 2, 2⟩ (.ver ⟨1, 2, 3⟩) = .ok false := by
  refine ⟨fun a b => ?_, by rfl, by rfl, by rfl⟩
  simp [Version.xorDyn, vxor, Bool.and_eq_true, decide_eq_true_eq, beq_iff_eq, and_assoc]

/-- Witness for C9 at a concrete input. -/
theorem version_caret_spec_witness :
    Version.xorDyn ⟨1, 2, 5⟩ (.ver ⟨1, 2, 3⟩) = .ok true :=
  version_caret_spec.2.1

/-- C10: every rich-comparison method of `Version`, and the caret operator,
raises `NotImplementedError` when the right operand is not a `Version`
value (rather than returning `False` or deferring with
`NotImplemented`). -/
theorem version_ops_reject_non_version (v : Version) (x : PyVal)
    (h : ∀ b : Version, x ≠ .ver b) :
    Version.eqDyn v x = .error .notImplementedError ∧
    Version.neDyn v x = .error .notImplementedError ∧
    Version.ltDyn v x = .error .notImplementedError ∧
    Version.gtDyn v x = .error .notImplementedError ∧
    Version.leDyn v x = .error .notImplementedError ∧
    Version.geDyn v x = .error .notImplementedError ∧
    Version.xorDyn v x = .error .notImplementedError := by
  cases x with
  | ver b => exact absurd rfl (h b)
  | pyStr s => exact ⟨rfl, rfl, rfl, rfl, rfl, rfl, rfl⟩
  | pyNone => exact ⟨rfl, rfl, rfl, rfl, rfl, rfl, rfl⟩
  | pyInt n => exact ⟨rfl, rfl, rfl, rfl, rfl, rfl, rfl⟩

/-- Witness for C10: comparing a `Version` with `None` raises. -/
theorem version_ops_reject_non_version_witness :
    Version.eqDyn ⟨1, 2, 3⟩ .pyNone = .error .notImplementedError ∧
    Version.neDyn ⟨1, 2, 3⟩ .pyNone = .error .notImplementedError ∧
    Version.ltDyn ⟨1, 2, 3⟩ .pyNone = .error .notImplementedError ∧
    Version.gtDyn ⟨1, 2, 3⟩ .pyNone = .error .notImplementedError ∧
    Version.leDyn ⟨1, 2, 3⟩ .pyNone = .error .notImplementedError ∧
    Version.geDyn ⟨1, 2, 3⟩ .pyNone = .error .notImplementedError ∧
    Version.xorDyn ⟨1, 2, 3⟩ .pyNone = .error .notImplementedError :=
  version_ops_reject_non_version ⟨1, 2, 3⟩ .pyNone (fun b h => by cases h)

/-- C1: on catalog `{0.8.0, 0.8.1, 0.8.2, 0.9.5, 0.9.6}` (latest `0.9.6`)
and constraint `('>', 0, 8, 2)`, the bound's patch `2` is the maximum known
patch of the `(0, 8)` series, and the minimum known patch of the `(0, 9)`
series is `5`, so the claim requires `"0.9.5"`; the code's stepping line
reads `min(version_dict[first_major + 1], default=0)` — the minor numbers
of the next MAJOR, an empty collection here — and returns `"0.9.0"`. -/
theorem recommended_gt_steps_into_next_major_eval :
    get_recommended_version ⟨[⟨0, 8, 0⟩, ⟨0, 8, 1⟩, ⟨0, 8, 2⟩, ⟨0, 9, 5⟩, ⟨0, 9, 6⟩], ⟨0, 9, 6⟩⟩
        ⟨0, 4, 0⟩ (some ((">", 0, 8, 2), none)) = .ok (some "0.9.0") ∧
    minD (patchesOf [⟨0, 8, 0⟩, ⟨0, 8, 1⟩, ⟨0, 8, 2⟩, ⟨0, 9, 5⟩, ⟨0, 9, 6⟩] 0 9) = 5 :=
  ⟨by rfl, by rfl⟩

/-- C2: on catalog `{0.4.0, 0.4.1}` with earliest known release `0.4.0`
and constraint `('<', 0, 4, 0)`, the bound is `<=` the earliest release, so
the claim requires `NoCompatibleVersion` to be raised; line 207 of
resolver.py constructs `NoCompatibleVersionError("earliest", earliest)`
without `raise`, so execution falls through and returns `"0.3.0"`. -/
theorem recommended_lt_below_earliest_returns_instead_of_raising :
    get_recommended_version ⟨[⟨0, 4, 0⟩, ⟨0, 4, 1⟩], ⟨0, 4, 1⟩⟩ ⟨0, 4, 0⟩
        (some (("<", 0, 4, 0), none)) = .ok (some "0.3.0") ∧
    vle ⟨0, 4, 0⟩ ⟨0, 4, 0⟩ = true :=
  ⟨by rfl, by rfl⟩

/-- C3 counterexample: on catalog `{0.8.5}` with earliest release `0.4.0`
and constraint `('<', 0, 8, 3)`, the bound's patch `3` is NOT the minimum
known patch of the `(0, 8)` series (that minimum is `5`), so the claim as
stated requires `"0.8.2"`; the code's test is `first_patch <= min(patches)`
(no lower patch exists), which holds here, so it steps down and returns
`"0.7.0"`. -/
theorem recommended_lt_patch_below_series_counterexample :
    get_recommended_version ⟨[⟨0, 8, 5⟩], ⟨0, 8, 5⟩⟩ ⟨0, 4, 0⟩
        (some (("<", 0, 8, 3), none)) = .ok (some "0.7.0") ∧
    ("0.7.0" : String) ≠ "0.8.2" ∧
    minD (patchesOf [⟨0, 8, 5⟩] 0 8) = 5 :=
  ⟨by rfl, by decide, by rfl⟩

/-- C6: the grammar accepts a sole clause with no patch component, but the
code then evaluates `int(first_3)` on the `None` capture and raises
`TypeError` instead of returning a constraint with the patch absent. -/
theorem parse_missing_patch_type_error_eval :
    resolve_version_from_solidity "pragma solidity 0.8;" = .error .typeError ∧
    reMatch "pragma solidity 0.8;" =
      some ⟨some "", some "0", some "8", none, none, none, none, none⟩ :=
  ⟨by rfl, by rfl⟩

/-- C7 counterexample: `"1.2.3\n"` has a trailing newline, so the claim as
stated requires construction to fail; Python's `$` matches just before a
single trailing newline and `int("3\n")` strips it, so `Version("1.2.3\n")`
succeeds with components `(1, 2, 3)`. -/
theorem version_init_trailing_newline_counterexample :
    Version.init "1.2.3\n" = .ok ⟨1, 2, 3⟩ ∧ ("1.2.3\n" : String) ≠ "1.2.3" :=
  ⟨by rfl, by decide⟩

/-- C8 counterexample: the pragma `(('=', 0, 8, 0), None)` — parseable from
`pragma solidity =0.8.0;` since the comparator class is `[>^=<]*` — is a
present constraint, yet `get_recommended_version` matches no operator case
and falls through to `return None`, so `None` does not only occur for an
absent constraint. -/
theorem recommended_none_for_unsupported_op_counterexample :
    get_recommended_version ⟨[⟨0, 8, 0⟩], ⟨0, 8, 0⟩⟩ ⟨0, 4, 0⟩
        (some (("=", 0, 8, 0), none)) = .ok none ∧
    (some ((("=", 0, 8, 0) : Clause), (none : Option Clause)) : Option Pragma) ≠ none :=
  ⟨by rfl, by decide⟩

/-- A capture on which `int` succeeds participated and is non-empty, hence
Python-truthy. -/
theorem truthy_of_pyIntCap_ok {o : Option String} {n : Int}
    (h : pyIntCap o = .ok n) : truthy o = true := by
  cases o with
  | none => simp [pyIntCap] at h
  | some s =>
    simp only [truthy, Bool.not_eq_eq_eq_not, Bool.not_true, beq_eq_false_iff_ne, ne_eq]
    intro hs
    subst hs
    simp [pyIntCap, pyIntChars, trimWs, String.data] at h

/-- Python tuple `>` agrees with the lexicographic order on triples. -/
theorem tupGT_iff (x y : Int × Int × Int) :
    tupGT x y = true ↔
      (y.1 < x.1 ∨ (x.1 = y.1 ∧ (y.2.1 < x.2.1 ∨ (x.2.1 = y.2.1 ∧ y.2.2 < x.2.2)))) := by
  simp [tupGT, Bool.or_eq_true, Bool.and_eq_true, decide_eq_true_eq, beq_iff_eq]

/-- C5: whenever the pragma statement matches with a second clause present
and all six version components fully specified (each `int` conversion
succeeds), a first triple lexicographically greater than the second makes
`resolve_version_from_solidity` return `None` — the descending range is
rejected, not reordered. -/
theorem parse_rejects_descending_range (source : String) (g : Groups)
    (hm : reMatch source = some g) (hsc : g.second_comp.isSome = true)
    (a1 a2 a3 b1 b2 b3 : Int)
    (hf1 : pyIntCap g.first_1 = .ok a1) (hf2 : pyIntCap g.first_2 = .ok a2)
    (hf3 : pyIntCap g.first_3 = .ok a3)
    (hs1 : pyIntCap g.second_1 = .ok b1) (hs2 : pyIntCap g.second_2 = .ok b2)
    (hs3 : pyIntCap g.second_3 = .ok b3)
    (hgt : b1 < a1 ∨ (a1 = b1 ∧ (b2 < a2 ∨ (a2 = b2 ∧ b3 < a3)))) :
    resolve_version_from_solidity source = .ok none := by
  have hT : tupGT (a1, a2, a3) (b1, b2, b3) = true := (tupGT_iff _ _).mpr (by simpa using hgt)
  unfold resolve_version_from_solidity tripleOfCaps
  rw [hm]
  simp only [hsc, truthy_of_pyIntCap_ok hs1, truthy_of_pyIntCap_ok hs2,
    truthy_of_pyIntCap_ok hs3, hf1, hf2, hf3, hs1, hs2, hs3, Bool.and_self, if_true, hT]

/-- Witness for C5: the spec's inverted-range example parses to `None`. -/
theorem parse_rejects_descending_range_witness :
    resolve_version_from_solidity "pragma solidity >=0.8.0 <0.6.0;" = .ok none :=
  parse_rejects_descending_range "pragma solidity >=0.8.0 <0.6.0;"
    ⟨some ">=", some "0", some "8", some "0", some "<", some "0", some "6", some "0"⟩
    (by rfl) (by rfl) 0 8 0 0 6 0 (by rfl) (by rfl) (by rfl) (by rfl) (by rfl) (by rfl)
    (by decide)

/-- For each of the six handled operators, `get_recommended_version` on a
present constraint never returns `None`: it returns a version string or
raises. -/
theorem recommended_supported_not_none (cat : Catalog) (earliest : Version)
    (op : String) (M m p : Int) (c2 : Option Clause)
    (hsup : op ∈ (["", "^", ">=", "<=", ">", "<"] : List String)) :
    get_recommended_version cat earliest (some ((op, M, m, p), c2)) ≠ .ok none := by
  simp only [List.mem_cons, List.not_mem_nil, or_false] at hsup
  rcases hsup with h | h | h | h | h | h <;> subst h
  · simp only [get_recommended_version]
    rw [if_pos (by decide)]
    simp
  · simp only [get_recommended_version]
    rw [if_pos (by decide)]
    simp
  · simp only [get_recommended_version]
    rw [if_pos (by decide)]
    simp
  · simp only [get_recommended_version]
    rw [if_pos (by decide)]
    simp
  · simp only [get_recommended_version]
    rw [if_neg (by decide), if_pos trivial]
    cases hv : versionOfInts M m p with
    | error e => simp
    | ok v =>
      by_cases hge : vge v cat.latest = true
      · simp [hge]
      · simp only [Bool.not_eq_true] at hge
        simp only [hge, Bool.false_eq_true, if_false]
        cases hp : patchesOf cat.releases M m with
        | nil => simp
        | cons q qs =>
          simp only [hp]
          split <;> simp
  · simp only [get_recommended_version]
    rw [if_neg (by decide), if_neg (by decide), if_pos trivial]
    cases hv : versionOfInts M m p with
    | error e => simp
    | ok v =>
      simp only [hv]
      cases hp : patchesOf cat.releases M m with
      | nil => simp
      | cons q qs =>
        simp only [hp]
        split <;> simp

/-- C8 (amended): `get_recommended_version` returns `None` exactly when the
constraint is absent OR the constraint's first operator is outside the six
handled ones (`""`, `"^"`, `">="`, `"<="`, `">"`, `"<"`, e.g. a parseable
`"="`); for a handled operator the call returns a version string or raises
an exception. -/
theorem recommended_none_iff_amended (cat : Catalog) (earliest : Version)
    (pr : Option Pragma) :
    get_recommended_version cat earliest pr = .ok none ↔
      (pr = none ∨ ∃ op M m p c2, pr = some ((op, M, m, p), c2) ∧
        op ∉ (["", "^", ">=", "<=", ">", "<"] : List String)) := by
  cases pr with
  | none => simp [get_recommended_version]
  | some q =>
    obtain ⟨⟨op, M, m, p⟩, c2⟩ := q
    constructor
    · intro h
      right
      exact ⟨op, M, m, p, c2, rfl, fun hmem =>
        recommended_supported_not_none cat earliest op M m p c2 hmem h⟩
    · rintro (h | ⟨op', M', m', p', c2', heq, hnot⟩)
      · exact absurd h (by simp)
      · simp only [Option.some.injEq, Prod.mk.injEq] at heq
        obtain ⟨⟨rfl, rfl, rfl, rfl⟩, rfl⟩ := heq
        simp only [List.mem_cons, List.not_mem_nil, or_false, not_or] at hnot
        obtain ⟨hne1, hne2, hne3, hne4, hne5, hne6⟩ := hnot
        simp only [get_recommended_version]
        rw [if_neg ?hA, if_neg hne5, if_neg hne6]
        case hA =>
          simp only [List.mem_cons, List.not_mem_nil, or_false, not_or]
          exact ⟨hne2, hne3, hne4, hne1⟩

/-- Witness for C8: an absent constraint yields `None`. -/
theorem recommended_none_iff_amended_witness :
    get_recommended_version ⟨[⟨0, 8, 0⟩], ⟨0, 8, 0⟩⟩ ⟨0, 4, 0⟩ none = .ok none :=
  (recommended_none_iff_amended ⟨[⟨0, 8, 0⟩], ⟨0, 8, 0⟩⟩ ⟨0, 4, 0⟩ none).mpr (Or.inl rfl)

/-- A lower bound on a running `min` fold is a lower bound on the seed and
every element. -/
theorem le_foldl_min_iff (p q : Int) (l : List Int) :
    p ≤ l.foldl min q ↔ p ≤ q ∧ ∀ x ∈ l, p ≤ x := by
  induction l generalizing q with
  | nil => simp
  | cons a as ih =>
    simp only [List.foldl_cons, List.mem_cons]
    rw [ih]
    constructor
    · rintro ⟨h1, h2⟩
      rw [le_min_iff] at h1
      exact ⟨h1.1, fun x hx => hx.elim (fun e => e ▸ h1.2) (h2 x)⟩
    · rintro ⟨h1, h2⟩
      exact ⟨le_min_iff.mpr ⟨h1, h2 a (Or.inl rfl)⟩, fun x hx => h2 x (Or.inr hx)⟩


/-- `max(xs, default=0)` is `0` on the empty collection and otherwise an
element of the collection that bounds every element. -/
theorem maxD_spec (l : List Int) :
    (l = [] ∧ maxD l = 0) ∨ (maxD l ∈ l ∧ ∀ x ∈ l, x ≤ maxD l) := by
  cases l with
  | nil => exact Or.inl ⟨rfl, rfl⟩
  | cons q qs =>
    right
    suffices h : ∀ (as : List Int) (q : Int),
        (as.foldl max q = q ∨ as.foldl max q ∈ as) ∧
        ∀ x, (x = q ∨ x ∈ as) → x ≤ as.foldl max q by
      have h2 := h qs q
      simp only [maxD, List.mem_cons]
      exact ⟨h2.1, fun x hx => h2.2 x hx⟩
    intro as
    induction as with
    | nil =>
      intro q
      refine ⟨Or.inl rfl, ?_⟩
      rintro x (rfl | hx)
      · exact le_refl x
      · cases hx
    | cons a as ih =>
      intro q
      have h := ih (max q a)
      refine ⟨?_, ?_⟩
      · rcases h.1 with h1 | h1
        · rcases max_choice q a with hm | hm
          · exact Or.inl (by rw [List.foldl_cons, h1, hm])
          · refine Or.inr ?_
            rw [List.foldl_cons, h1, hm]
            exact List.mem_cons_self a as
        · refine Or.inr ?_
          rw [List.foldl_cons]
          exact List.mem_cons_of_mem a h1
      · intro x hx
        rw [List.foldl_cons]
        rcases hx with rfl | hx
        · exact le_trans (le_max_left x a) (h.2 _ (Or.inl rfl))
        · rcases List.mem_cons.mp hx with rfl | hx2
          · exact le_trans (le_max_right q x) (h.2 _ (Or.inl rfl))
          · exact h.2 x (Or.inr hx2)

/-- Evaluation of the `'<'` branch of `get_recommended_version` once the
`(M, m)` patch series is known to be `q :: qs`: the result is the
step-down string or the patch-decrement string according to the code's
`first_patch <= min(patches)` test. -/
theorem recommended_lt_eval (cat : Catalog) (earliest : Version)
    (M m p : Int) (c2 : Option Clause)
    (hM : 0 ≤ M) (hm : 0 ≤ m) (hp : 0 ≤ p) (q : Int) (qs : List Int)
    (hq : patchesOf cat.releases M m = q :: qs) :
    get_recommended_version cat earliest (some (("<", M, m, p), c2)) =
      if p ≤ qs.foldl min q then
        .ok (some (intStr M ++ "." ++ intStr (m - 1) ++ "." ++
              intStr (maxD (patchesOf cat.releases M (m - 1)))))
      else .ok (some (intStr M ++ "." ++ intStr m ++ "." ++ intStr (p - 1))) := by
  have hv : versionOfInts M m p = .ok ⟨M, m, p⟩ := by
    simp [versionOfInts, hM, hm, hp]
  simp only [get_recommended_version]
  rw [if_neg (by decide), if_neg (by decide), if_pos trivial]
  simp only [hv, hq]
  simp only [decide_eq_true_eq]

/-- C3 (amended): for `('<', M, m, p)` with non-negative components, the
bound strictly above the earliest release, and a non-empty `(M, m)` patch
series: when no known patch of the series lies strictly below `p` (the
code's `first_patch <= min(patches)` test, not only when `p` IS the
minimum), the result steps down to `M.(m-1).q` with `q` the maximum known
patch of the `(M, m-1)` series or `0` if that series is absent; otherwise
the result is `M.m.(p-1)`. -/
theorem recommended_lt_amended (cat : Catalog) (earliest : Version)
    (M m p : Int) (c2 : Option Clause)
    (hM : 0 ≤ M) (hm : 0 ≤ m) (hp : 0 ≤ p)
    (hser : patchesOf cat.releases M m ≠ [])
    (hearl : ¬ vLexLe ⟨M, m, p⟩ earliest) :
    ((∀ x ∈ patchesOf cat.releases M m, p ≤ x) →
      get_recommended_version cat earliest (some (("<", M, m, p), c2)) =
        .ok (some (intStr M ++ "." ++ intStr (m - 1) ++ "." ++
              intStr (maxD (patchesOf cat.releases M (m - 1)))))) ∧
    ((∃ x ∈ patchesOf cat.releases M m, x < p) →
      get_recommended_version cat earliest (some (("<", M, m, p), c2)) =
        .ok (some (intStr M ++ "." ++ intStr m ++ "." ++ intStr (p - 1)))) := by
  cases hq : patchesOf cat.releases M m with
  | nil => exact absurd hq hser
  | cons q qs =>
    have he := recommended_lt_eval cat earliest M m p c2 hM hm hp q qs hq
    constructor
    · intro hall
      rw [he, if_pos ((le_foldl_min_iff p q qs).mpr
        ⟨hall q (List.mem_cons_self q qs), fun x hx => hall x (List.mem_cons_of_mem q hx)⟩)]
    · rintro ⟨x, hx, hxp⟩
      rw [he, if_neg ?hc]
      case hc =>
        intro hle
        have h2 := (le_foldl_min_iff p q qs).mp hle
        rcases List.mem_cons.mp hx with rfl | hx2
        · omega
        · have := h2.2 x hx2
          omega

/-- Witness for C3 at catalog `{0.8.5}`, constraint `('<', 0, 8, 3)`:
the code steps down to minor `7` (absent, so patch `0`). -/
theorem recommended_lt_amended_witness :
    get_recommended_version ⟨[⟨0, 8, 5⟩], ⟨0, 8, 5⟩⟩ ⟨0, 4, 0⟩
        (some (("<", 0, 8, 3), none)) =
      .ok (some (intStr 0 ++ "." ++ intStr (8 - 1) ++ "." ++
            intStr (maxD (patchesOf [⟨0, 8, 5⟩] 0 (8 - 1))))) :=
  (recommended_lt_amended ⟨[⟨0, 8, 5⟩], ⟨0, 8, 5⟩⟩ ⟨0, 4, 0⟩ 0 8 3 none
    (by decide) (by decide) (by decide) (by decide) (by decide)).1 (by decide)

/-- Two booleans with equivalent truth conditions are equal. -/
theorem bool_eq_of_iff {a b : Bool} (h : a = true ↔ b = true) : a = b := by
  cases a <;> cases b <;> simp_all

/-- The source's tuple `<` agrees with the specification's strict
lexicographic order. -/
theorem vlt_iff (a b : Version) : vlt a b = true ↔ vLexLt a b := by
  simp only [vlt, vLexLt, Bool.or_eq_true, Bool.and_eq_true, decide_eq_true_eq, beq_iff_eq]

/-- The source's tuple `<=` agrees with the specification's non-strict
lexicographic order. -/
theorem vle_iff (a b : Version) : vle a b = true ↔ vLexLe a b := by
  simp only [vle, vLexLe, vLexLt, Bool.or_eq_true, Bool.and_eq_true, decide_eq_true_eq,
    beq_iff_eq]
  omega

/-- The source's tuple `>` agrees with the flipped strict order. -/
theorem vgt_iff (a b : Version) : vgt a b = true ↔ vLexLt b a := by
  simp only [vgt, vLexLt, Bool.or_eq_true, Bool.and_eq_true, decide_eq_true_eq, beq_iff_eq]
  omega

/-- The source's tuple `>=` agrees with the flipped non-strict order. -/
theorem vge_iff (a b : Version) : vge a b = true ↔ vLexLe b a := by
  simp only [vge, vLexLe, vLexLt, Bool.or_eq_true, Bool.and_eq_true, decide_eq_true_eq,
    beq_iff_eq]
  omega

/-- C4: for a two-clause constraint whose operators form one of the four
lower/upper combinations, `get_compatible_versions` returns (without error)
exactly the catalog versions lying in the corresponding interval, in the
catalog's own order; if the catalog is version-ascending so is the result;
and when no catalog version lies in the interval the result is the empty
list. -/
theorem compatible_versions_two_clause_interval (cat : Catalog)
    (op1 op2 : String) (M1 m1 p1 M2 m2 p2 : Int)
    (h1 : op1 = ">=" ∨ op1 = ">") (h2 : op2 = "<=" ∨ op2 = "<")
    (hn1 : 0 ≤ M1 ∧ 0 ≤ m1 ∧ 0 ≤ p1) (hn2 : 0 ≤ M2 ∧ 0 ≤ m2 ∧ 0 ≤ p2) :
    get_compatible_versions cat (some ((op1, M1, m1, p1), some (op2, M2, m2, p2))) =
      .ok (.listR ((cat.releases.filter
        (fun x => decide (inInterval ⟨M1, m1, p1⟩ ⟨M2, m2, p2⟩ op1 op2 x))).map verStr)) ∧
    (List.Pairwise vLexLt cat.releases →
      List.Pairwise vLexLt (cat.releases.filter
        (fun x => decide (inInterval ⟨M1, m1, p1⟩ ⟨M2, m2, p2⟩ op1 op2 x)))) ∧
    ((∀ x ∈ cat.releases, ¬ inInterval ⟨M1, m1, p1⟩ ⟨M2, m2, p2⟩ op1 op2 x) →
      cat.releases.filter
        (fun x => decide (inInterval ⟨M1, m1, p1⟩ ⟨M2, m2, p2⟩ op1 op2 x)) = []) := by
  have hv1 : versionOfInts M1 m1 p1 = .ok ⟨M1, m1, p1⟩ := by
    simp [versionOfInts, hn1.1, hn1.2.1, hn1.2.2]
  have hv2 : versionOfInts M2 m2 p2 = .ok ⟨M2, m2, p2⟩ := by
    simp [versionOfInts, hn2.1, hn2.2.1, hn2.2.2]
  refine ⟨?_, ?_, ?_⟩
  · have hcong : ∀ (pa : Version → Bool) (o1 o2 : String),
        (∀ x, pa x = true ↔ inInterval ⟨M1, m1, p1⟩ ⟨M2, m2, p2⟩ o1 o2 x) →
        cat.releases.filter pa =
          cat.releases.filter (fun x => decide (inInterval ⟨M1, m1, p1⟩ ⟨M2, m2, p2⟩ o1 o2 x)) := by
      intro pa o1 o2 hiff
      apply List.filter_congr
      intro x _
      apply bool_eq_of_iff
      simp [hiff x]
    simp only [get_compatible_versions, hv1, hv2]
    rcases h1 with rfl | rfl <;> rcases h2 with rfl | rfl
    · rw [if_neg (by decide), if_pos (by decide),
        hcong _ ">=" "<=" (fun x => by simp [inInterval, vle_iff])]
    · rw [if_neg (by decide), if_neg (by decide), if_neg (by decide), if_pos (by decide),
        hcong _ ">=" "<" (fun x => by simp [inInterval, vle_iff, vlt_iff])]
    · rw [if_neg (by decide), if_neg (by decide), if_pos (by decide),
        hcong _ ">" "<=" (fun x => by simp [inInterval, vle_iff, vlt_iff])]
    · rw [if_neg (by decide), if_neg (by decide), if_neg (by decide), if_neg (by decide),
        if_pos (by decide), hcong _ ">" "<" (fun x => by simp [inInterval, vlt_iff])]
  · intro hPW
    exact hPW.sublist (List.filter_sublist cat.releases)
  · intro hnone
    rw [List.filter_eq_nil_iff]
    intro x hx
    simp [hnone x hx]

/-- Witness for C4: the spec's example catalog and range, evaluated. -/
theorem compatible_versions_two_clause_interval_witness :
    get_compatible_versions ⟨[⟨0, 6, 0⟩, ⟨0, 6, 1⟩, ⟨0, 7, 0⟩], ⟨0, 7, 0⟩⟩
        (some ((">=", 0, 6, 0), some ("<", 0, 7, 0))) = .ok (.listR ["0.6.0", "0.6.1"]) := by
  have h := (compatible_versions_two_clause_interval ⟨[⟨0, 6, 0⟩, ⟨0, 6, 1⟩, ⟨0, 7, 0⟩], ⟨0, 7, 0⟩⟩
    ">=" "<" 0 6 0 0 7 0 (Or.inl rfl) (Or.inr rfl) (by norm_num) (by norm_num)).1
  rw [h]
  rfl

/-- A list none of whose characters satisfy `p` is untouched by
`dropWhile`. -/
theorem dropWhile_eq_self_of_all {p : Char → Bool} (l : List Char)
    (h : ∀ c ∈ l, p c = false) : l.dropWhile p = l := by
  cases l with
  | nil => rfl
  | cons c cs =>
    rw [List.dropWhile_cons, if_neg]
    simp [h c (List.mem_cons_self c cs)]

/-- A decimal digit is not Python whitespace. -/
theorem digit_not_ws (c : Char) (h : Char.isDigit c = true) : isPyWs c = false := by
  by_contra hw
  simp only [Bool.not_eq_false, isPyWs, Bool.or_eq_true, beq_iff_eq] at hw
  rcases hw with ((((rfl | rfl) | rfl) | rfl) | rfl) | rfl <;> exact absurd h (by decide)

/-- Dropping digits across a digit run stops exactly at a non-digit
continuation. -/
theorem dropWhile_digit_append (ds : List Char) (h : ∀ c ∈ ds, Char.isDigit c = true)
    (rest : List Char) (hrest : ∀ c cs, rest = c :: cs → Char.isDigit c = false) :
    (ds ++ rest).dropWhile Char.isDigit = rest := by
  induction ds with
  | nil =>
    cases hr : rest with
    | nil => rfl
    | cons c cs =>
      simp only [List.nil_append, hr, List.dropWhile_cons]
      rw [if_neg]
      simp [hrest c cs hr]
  | cons d ds ih =>
    simp only [List.cons_append, List.dropWhile_cons]
    rw [if_pos (h d (List.mem_cons_self d ds))]
    exact ih (fun c hc => h c (List.mem_cons_of_mem d hc))

/-- `\d+` consumes a whole digit run when what follows does not start with
a digit. -/
theorem dropDigits1_append (d : List Char) (hne : d ≠ [])
    (hdig : ∀ c ∈ d, Char.isDigit c = true)
    (rest : List Char) (hrest : ∀ c cs, rest = c :: cs → Char.isDigit c = false) :
    dropDigits1 (d ++ rest) = some rest := by
  cases d with
  | nil => exact absurd rfl hne
  | cons c cs =>
    simp only [List.cons_append, dropDigits1]
    rw [if_pos (hdig c (List.mem_cons_self c cs))]
    rw [dropWhile_digit_append cs (fun x hx => hdig x (List.mem_cons_of_mem c hx)) rest hrest]

/-- A successful `\d+` consumption decomposes the input into a digit run
followed by the rest. -/
theorem dropDigits1_decomp {l r : List Char} (h : dropDigits1 l = some r) :
    ∃ d, digitRun d ∧ l = d ++ r := by
  cases l with
  | nil => simp [dropDigits1] at h
  | cons c cs =>
    simp only [dropDigits1] at h
    by_cases hc : Char.isDigit c = true
    · rw [if_pos hc] at h
      injection h with h
      refine ⟨c :: cs.takeWhile Char.isDigit, ⟨by simp, ?_⟩, ?_⟩
      · intro x hx
        rcases List.mem_cons.mp hx with rfl | hx2
        · exact hc
        · exact List.mem_takeWhile_imp hx2
      · rw [← h, List.cons_append, List.takeWhile_append_dropWhile]
    · rw [if_neg hc] at h
      cases h

/-- Splitting is the identity on a dot-free piece. -/
theorem pySplitDot_nodot (l : List Char) (h : ∀ c ∈ l, c ≠ '.') : pySplitDot l = [l] := by
  induction l with
  | nil => rfl
  | cons c cs ih =>
    simp only [pySplitDot]
    rw [if_neg (h c (List.mem_cons_self c cs))]
    rw [ih (fun x hx => h x (List.mem_cons_of_mem c hx))]

/-- Splitting peels off a dot-free piece before a dot. -/
theorem pySplitDot_append (a : List Char) (h : ∀ c ∈ a, c ≠ '.') (r : List Char) :
    pySplitDot (a ++ '.' :: r) = a :: pySplitDot r := by
  induction a with
  | nil =>
    simp [pySplitDot]
  | cons c cs ih =>
    simp only [List.cons_append, pySplitDot]
    rw [if_neg (h c (List.mem_cons_self c cs))]
    simp only [List.append_eq]
    rw [ih (fun x hx => h x (List.mem_cons_of_mem c hx))]

/-- Whitespace-trimming is the identity on a non-empty digit run. -/
theorem trimWs_digits (l : List Char) (hdig : ∀ c ∈ l, Char.isDigit c = true) :
    trimWs l = l := by
  unfold trimWs
  rw [dropWhile_eq_self_of_all l (fun c hc => digit_not_ws c (hdig c hc))]
  rw [dropWhile_eq_self_of_all l.reverse
    (fun c hc => digit_not_ws c (hdig c (List.mem_reverse.mp hc)))]
  exact List.reverse_reverse l

/-- A list whose head fails `p` is untouched by `dropWhile`. -/
theorem dropWhile_eq_self_of_head {p : Char → Bool} (c : Char) (cs : List Char)
    (h : p c = false) : (c :: cs).dropWhile p = c :: cs := by
  rw [List.dropWhile_cons, if_neg]
  simp [h]

/-- Whitespace-trimming strips a single trailing newline from a digit
run. -/
theorem trimWs_digits_newline (l : List Char) (hne : l ≠ [])
    (hdig : ∀ c ∈ l, Char.isDigit c = true) :
    trimWs (l ++ ['\x0a']) = l := by
  unfold trimWs
  cases l with
  | nil => exact absurd rfl hne
  | cons d ds =>
    rw [List.cons_append,
      dropWhile_eq_self_of_head d (ds ++ ['\x0a'])
        (digit_not_ws d (hdig d (List.mem_cons_self d ds)))]
    rw [← List.cons_append]
    have h1 : ((d :: ds) ++ ['\x0a']).reverse = '\x0a' :: (d :: ds).reverse := by
      rw [List.reverse_append]
      rfl
    rw [h1, List.dropWhile_cons, if_pos (by decide)]
    rw [dropWhile_eq_self_of_all (d :: ds).reverse
      (fun c hc => digit_not_ws c (hdig c (List.mem_reverse.mp hc)))]
    exact List.reverse_reverse (d :: ds)

/-- `int` succeeds on a non-empty digit run. -/
theorem pyIntChars_digits (l : List Char) (hne : l ≠ [])
    (hdig : ∀ c ∈ l, Char.isDigit c = true) :
    pyIntChars l = some ((digitsToNat l : Nat) : Int) := by
  unfold pyIntChars
  rw [trimWs_digits l hdig]
  rw [if_pos ⟨hne, List.all_eq_true.mpr hdig⟩]

/-- `int` succeeds on a digit run with one trailing newline, ignoring the
newline. -/
theorem pyIntChars_digits_newline (l : List Char) (hne : l ≠ [])
    (hdig : ∀ c ∈ l, Char.isDigit c = true) :
    pyIntChars (l ++ ['\x0a']) = some ((digitsToNat l : Nat) : Int) := by
  unfold pyIntChars
  rw [trimWs_digits_newline l hne hdig]
  rw [if_pos ⟨hne, List.all_eq_true.mpr hdig⟩]

/-- The amended shape implies the validity regex accepts. -/
theorem valid_of_shape {l : List Char} (h : validShapeSpec l) :
    validVersionChars l = true := by
  obtain ⟨a, b, c, t, ha, hb, hc, ht, rfl⟩ := h
  have hta : ∀ x cs, ('.' :: (b ++ '.' :: (c ++ t))) = x :: cs → Char.isDigit x = false :=
    fun x cs hx => by cases hx; decide
  have htb : ∀ x cs, ('.' :: (c ++ t)) = x :: cs → Char.isDigit x = false :=
    fun x cs hx => by cases hx; decide
  have htc : ∀ x cs, t = x :: cs → Char.isDigit x = false := by
    rcases ht with rfl | rfl
    · intro x cs hx
      cases hx
    · intro x cs hx
      cases hx
      decide
  have h1 := dropDigits1_append a ha.1 ha.2 ('.' :: (b ++ '.' :: (c ++ t))) hta
  have h2 := dropDigits1_append b hb.1 hb.2 ('.' :: (c ++ t)) htb
  have h3 := dropDigits1_append c hc.1 hc.2 t htc
  simp only [validVersionChars, h1, h2, h3, if_pos rfl]
  rcases ht with rfl | rfl <;> rfl

/-- The validity regex accepting implies the amended shape. -/
theorem shape_of_valid {l : List Char} (h : validVersionChars l = true) :
    validShapeSpec l := by
  unfold validVersionChars at h
  split at h
  next => exact absurd h (by decide)
  next => exact absurd h (by decide)
  next x l2 h1 =>
    by_cases hx : x = '.'
    · rw [if_pos hx] at h
      subst hx
      split at h
      next => exact absurd h (by decide)
      next => exact absurd h (by decide)
      next y l4 h2 =>
        by_cases hy : y = '.'
        · rw [if_pos hy] at h
          subst hy
          split at h
          next => exact absurd h (by decide)
          next l5 h3 =>
            obtain ⟨a, ha, rfl⟩ := dropDigits1_decomp h1
            obtain ⟨b, hb, rfl⟩ := dropDigits1_decomp h2
            obtain ⟨c, hc, rfl⟩ := dropDigits1_decomp h3
            refine ⟨a, b, c, l5, ha, hb, hc, ?_, rfl⟩
            simp only [Bool.or_eq_true, beq_iff_eq] at h
            exact h
        · rw [if_neg hy] at h
          exact absurd h (by decide)
    · rw [if_neg hx] at h
      exact absurd h (by decide)

/-- Construction succeeding requires the validity assert to pass. -/
theorem init_valid_of_ok {s : String} {v : Version} (h : Version.init s = .ok v) :
    is_valid_version s = true := by
  by_cases hv : is_valid_version s = true
  · exact hv
  · unfold Version.init at h
    rw [if_neg hv] at h
    cases h

/-- On a string of the amended shape, construction succeeds: the split
yields exactly three pieces and each `int` conversion succeeds. -/
theorem init_ok_of_shape (s : String) (h : validShapeSpec s.data) :
    ∃ v, Version.init s = .ok v := by
  obtain ⟨a, b, c, t, ha, hb, hc, ht, hdata⟩ := h
  have hvalid : is_valid_version s = true :=
    valid_of_shape ⟨a, b, c, t, ha, hb, hc, ht, hdata⟩
  have hna : ∀ x ∈ a, x ≠ '.' := fun x hx h2 => by
    subst h2
    exact absurd (ha.2 _ hx) (by decide)
  have hnb : ∀ x ∈ b, x ≠ '.' := fun x hx h2 => by
    subst h2
    exact absurd (hb.2 _ hx) (by decide)
  have hnct : ∀ x ∈ c ++ t, x ≠ '.' := by
    intro x hx h2
    subst h2
    rcases List.mem_append.mp hx with h3 | h3
    · exact absurd (hc.2 _ h3) (by decide)
    · rcases ht with rfl | rfl
      · cases h3
      · simp at h3
  have hsplit : pySplitDot s.data = [a, b, c ++ t] := by
    rw [hdata, pySplitDot_append a hna, pySplitDot_append b hnb,
      pySplitDot_nodot (c ++ t) hnct]
  have hpa := pyIntChars_digits a ha.1 ha.2
  have hpb := pyIntChars_digits b hb.1 hb.2
  have hpc : pyIntChars (c ++ t) = some ((digitsToNat c : Nat) : Int) := by
    rcases ht with rfl | rfl
    · rw [List.append_nil]
      exact pyIntChars_digits c hc.1 hc.2
    · exact pyIntChars_digits_newline c hc.1 hc.2
  refine ⟨⟨((digitsToNat a : Nat) : Int), ((digitsToNat b : Nat) : Int),
    ((digitsToNat c : Nat) : Int)⟩, ?_⟩
  unfold Version.init
  rw [if_pos hvalid]
  simp only [hsplit, hpa, hpb, hpc]

/-- C7 (amended): for a string of ASCII characters, `Version(s)` succeeds
exactly when `s` is three dot-separated non-empty runs of ASCII decimal
digits OPTIONALLY followed by a single trailing newline (Python's `$`
matches before a final newline and `int` strips it); every other ASCII
string fails with the constructor's invalid-version `AssertionError`.
Non-ASCII strings are outside this statement: Python's `\d` and `int()`
also accept non-ASCII Unicode decimal digits, which the embedding's ASCII
digit class does not model. -/
theorem version_init_success_iff_amended (s : String)
    (hascii : ∀ c ∈ s.data, c.toNat < 128) :
    ((∃ v, Version.init s = .ok v) ↔ validShapeSpec s.data) ∧
    (¬ validShapeSpec s.data → Version.init s = .error .assertionError) := by
  refine ⟨⟨?_, ?_⟩, ?_⟩
  · rintro ⟨v, hv⟩
    exact shape_of_valid (show validVersionChars s.data = true from init_valid_of_ok hv)
  · exact init_ok_of_shape s
  · intro hns
    unfold Version.init
    rw [if_neg (show ¬(is_valid_version s = true) from fun hvalid =>
      hns (shape_of_valid (show validVersionChars s.data = true from hvalid)))]

/-- Witness for C7: `"1.2.3"` is ASCII and constructs. -/
theorem version_init_success_iff_amended_witness :
    ∃ v, Version.init "1.2.3" = .ok v :=
  ((version_init_success_iff_amended "1.2.3" (by decide)).1).mpr
    ⟨['1'], ['2'], ['3'], [], by decide, by decide, by decide, Or.inl rfl, by decide⟩
